import Mathlib

/-!
Verification of the blocked-matmul dataflow kernels
(`reader_bmm_tile_layout.cpp` and `writer_bmm_tile_layout.cpp`):
the MXFP4 block codec, the strided tile-index traversal, and the
reader/writer pipeline event order, modelled as a shallow embedding.

Machine integers (`uint32_t`) are modelled as `Nat` with explicit
`% 2^32` where the source arithmetic can wrap (tile-index and address
accumulation); L1 and scratch storage is a total word-addressed map
`Nat → Nat`; the asynchronous transfer engine and the circular-buffer
protocol are modelled by the sequence of events the kernels emit.
-/

/-- Modulus of `uint32_t` arithmetic. -/
def M32 : Nat := 4294967296

/-- Wrapping 32-bit addition, modelling `uint32_t` `+=`. -/
def addw (x y : Nat) : Nat := (x + y) % M32

/-- Word-addressed memory: a total map from word addresses to word values. -/
abbrev Mem : Type := Nat → Nat

/-- Store one word at address `a`. -/
def upd (m : Mem) (a v : Nat) : Mem := fun x => if x = a then v else m x

/-- `MXFP4_BLOCK_SIZE` from both kernels: 32 values share one exponent. -/
def MXFP4_BLOCK_SIZE : Nat := 32

/-- IEEE-754 single-precision exponent field: `(v >> 23) & 0xFF`. -/
def expField (v : Nat) : Nat := (v >>> 23) &&& 0xFF

/-- Top 4 bits of the mantissa field: `(v & 0x7FFFFF) >> 19`. -/
def mantTop4 (v : Nat) : Nat := (v &&& 0x7FFFFF) >>> 19

/-- Reconstruction of one FP32 word from a 4-bit magnitude and the shared
exponent (`reader_bmm_tile_layout.cpp` lines 28-34): zero decodes to zero,
otherwise sign 0, exponent `sharedExp`, mantissa `v << 19`. -/
def decodeWord (sharedExp v : Nat) : Nat :=
  if v = 0 then 0 else (sharedExp <<< 23) ||| (v <<< 19)

/-- One iteration of the inner `j` loop of `convert_mxfp4_to_fp32_tile`:
extract nibble `j % 8` of word `i*5 + j/8 + 1` and store the decoded word
at `dst + i*32 + j`. -/
def decodeStep (src dst i sharedExp : Nat) (m : Mem) (j : Nat) : Mem :=
  let v := (m (src + i * 5 + j / 8 + 1) >>> (j % 8 * 4)) &&& 0x0F
  upd m (dst + i * MXFP4_BLOCK_SIZE + j) (decodeWord sharedExp v)

/-- One iteration of the outer group loop of `convert_mxfp4_to_fp32_tile`:
latch the shared exponent from the group's first word, then decode the 32
values. -/
def decodeGroup (src dst : Nat) (m : Mem) (i : Nat) : Mem :=
  let sharedExp := (m (src + i * 5) >>> 24) &&& 0xFF
  (List.range MXFP4_BLOCK_SIZE).foldl (decodeStep src dst i sharedExp) m

/-- `convert_mxfp4_to_fp32_tile(mxfp4_tile, fp32_tile, tile_size)` from
`reader_bmm_tile_layout.cpp` lines 10-37, with `src`/`dst` the word
addresses of the two pointer arguments over the common memory `m`. -/
def convert_mxfp4_to_fp32_tile (src dst tile_size : Nat) (m : Mem) : Mem :=
  (List.range (tile_size / MXFP4_BLOCK_SIZE)).foldl (decodeGroup src dst) m

/-- Accumulator step of the encoder's max-exponent scan
(`writer_bmm_tile_layout.cpp` lines 16-24). -/
def maxExpAcc (acc v : Nat) : Nat :=
  if v ≠ 0 then (if expField v > acc then expField v else acc) else acc

/-- The shared exponent the encoder computes for group `i`: the maximum
exponent field over the group's nonzero values, 0 if all are zero. -/
def groupMaxExp (src i : Nat) (m : Mem) : Nat :=
  (List.range MXFP4_BLOCK_SIZE).foldl
    (fun acc j => maxExpAcc acc (m (src + i * MXFP4_BLOCK_SIZE + j))) 0

/-- The 4-bit magnitude the encoder computes for one value
(`writer_bmm_tile_layout.cpp` lines 31-44): zero for a zero word, else the
top 4 mantissa bits shifted right by the exponent deficit, flushed to zero
when the deficit is negative or at least 16. -/
def encodeMag (maxExp v : Nat) : Nat :=
  if v ≠ 0 then
    (if expField v ≤ maxExp ∧ maxExp - expField v < 16 then
       mantTop4 v >>> (maxExp - expField v)
     else 0)
  else 0

/-- One iteration of the packing loop of `convert_fp32_to_mxfp4_tile`
(lines 30-50): OR the value's 4-bit magnitude into nibble `j % 8` of word
`i*5 + j/8 + 1`. -/
def encodePackStep (src dst i maxExp : Nat) (m : Mem) (j : Nat) : Mem :=
  let mx := encodeMag maxExp (m (src + i * MXFP4_BLOCK_SIZE + j))
  let bi := dst + i * 5 + j / 8 + 1
  upd m bi (m bi ||| (mx <<< (j % 8 * 4)))

/-- One iteration of the outer group loop of `convert_fp32_to_mxfp4_tile`:
scan for the maximum exponent, store it in the group's first word, then
pack the 32 magnitudes. -/
def encodeGroup (src dst : Nat) (m : Mem) (i : Nat) : Mem :=
  let maxExp := groupMaxExp src i m
  let m1 := upd m (dst + i * 5) (maxExp <<< 24)
  (List.range MXFP4_BLOCK_SIZE).foldl (encodePackStep src dst i maxExp) m1

/-- `convert_fp32_to_mxfp4_tile(fp32_tile, mxfp4_tile, tile_size)` from
`writer_bmm_tile_layout.cpp` lines 9-52. -/
def convert_fp32_to_mxfp4_tile (src dst tile_size : Nat) (m : Mem) : Mem :=
  (List.range (tile_size / MXFP4_BLOCK_SIZE)).foldl (encodeGroup src dst) m

/-- Size in words of the writer's stack scratch buffer
`uint32_t mxfp4_buffer[tile_elements / 6]` (writer line 106). -/
def mxfp4_buffer_words (tile_elements : Nat) : Nat := tile_elements / 6

/-- Observable actions of the reader kernel: circular-buffer reservation,
issuing one asynchronous tile read (`noc_async_read_tile`), running the
in-place MXFP4 decode on the tile at an L1 address, the read barrier, and
releasing the filled slots (`cb_push_back`). -/
inductive REv where
  | reserve (cb n : Nat)
  | issue (cb tileId addr : Nat)
  | decode (cb addr : Nat)
  | barrier
  | push (cb n : Nat)
deriving DecidableEq

/-- Runtime arguments of `kernel_main` in `reader_bmm_tile_layout.cpp`
(arguments 1-22; the base addresses only feed the tensor accessors and are
omitted, the two tile byte sizes come from `get_tile_size`). -/
structure ReaderArgs where
  in0_tensor_start_tile_id : Nat
  in0_tensor_stride_w : Nat
  in0_tensor_stride_h : Nat
  in0_tensor_next_block_stride : Nat
  in0_block_w : Nat
  in0_block_h : Nat
  in0_block_num_tiles : Nat
  in1_tensor_start_tile_id : Nat
  in1_tensor_stride_w : Nat
  in1_tensor_stride_h : Nat
  in1_tensor_next_block_stride : Nat
  in1_block_w : Nat
  in1_block_h : Nat
  in1_block_num_tiles : Nat
  num_blocks : Nat
  MtKt : Nat
  KtNt : Nat
  batch : Nat
  bcast_B : Nat
  in0_is_mxfp4 : Nat
  in1_is_mxfp4 : Nat
  in0_single_tile_size_bytes : Nat
  in1_single_tile_size_bytes : Nat

/-- Inner `w` loop of the reader for one operand (reader lines 107-119 and
127-139): issue the tile read, then immediately run the in-place decode on
that tile when the operand's MXFP4 flag is set, advance the tile id by the
column stride and the L1 address by the tile size. Returns the events and
the final L1 address. -/
def readerRowLoop (cb is_mxfp4 stride_w tile_bytes : Nat) :
    Nat → Nat → Nat → List REv × Nat
  | 0, _, addr => ([], addr)
  | w + 1, tid, addr =>
    let evs := REv.issue cb tid addr ::
      (if is_mxfp4 ≠ 0 then [REv.decode cb addr] else [])
    let rest := readerRowLoop cb is_mxfp4 stride_w tile_bytes w
      (addw tid stride_w) (addw addr tile_bytes)
    (evs ++ rest.1, rest.2)

/-- The `h` loop of the reader for one operand (reader lines 105-121 and
125-141): one row per iteration, advancing the row start by the row
stride; the L1 address carries across rows. -/
def readerRowsLoop (cb is_mxfp4 stride_w stride_h block_w tile_bytes : Nat) :
    Nat → Nat → Nat → List REv × Nat
  | 0, _, addr => ([], addr)
  | h + 1, rowStart, addr =>
    let row := readerRowLoop cb is_mxfp4 stride_w tile_bytes block_w rowStart addr
    let rest := readerRowsLoop cb is_mxfp4 stride_w stride_h block_w tile_bytes h
      (addw rowStart stride_h) row.2
    (row.1 ++ rest.1, rest.2)

/-- Body of one `block` iteration of the reader (lines 98-147): reserve
slots for both operands, traverse in0 then in1, then the read barrier and
the two releases. `wp0`/`wp1` are the L1 write pointers returned by
`get_write_ptr` for the two circular buffers. -/
def readerBlockBody (args : ReaderArgs) (wp0 wp1 s0 s1 : Nat) : List REv :=
  REv.reserve 0 args.in0_block_num_tiles ::
  REv.reserve 1 args.in1_block_num_tiles ::
  ((readerRowsLoop 0 args.in0_is_mxfp4 args.in0_tensor_stride_w
      args.in0_tensor_stride_h args.in0_block_w args.in0_single_tile_size_bytes
      args.in0_block_h s0 wp0).1 ++
   (readerRowsLoop 1 args.in1_is_mxfp4 args.in1_tensor_stride_w
      args.in1_tensor_stride_h args.in1_block_w args.in1_single_tile_size_bytes
      args.in1_block_h s1 wp1).1 ++
   [REv.barrier, REv.push 0 args.in0_block_num_tiles,
    REv.push 1 args.in1_block_num_tiles])

/-- The `block` loop of the reader (line 97): each operand's block start
advances by its next-block stride after every block. -/
def readerBlocksLoop (args : ReaderArgs) (wp0 wp1 : Nat) :
    Nat → Nat → Nat → List REv
  | 0, _, _ => []
  | blk + 1, s0, s1 =>
    readerBlockBody args wp0 wp1 s0 s1 ++
    readerBlocksLoop args wp0 wp1 blk
      (addw s0 args.in0_tensor_next_block_stride)
      (addw s1 args.in1_tensor_next_block_stride)

/-- The `batch` loop of the reader (lines 94-153): after each batch, in0's
start advances by `MtKt` unconditionally, in1's start advances by `KtNt`
only when `bcast_B == 0`. -/
def readerBatchesLoop (args : ReaderArgs) (wp0 wp1 : Nat) :
    Nat → Nat → Nat → List REv
  | 0, _, _ => []
  | b + 1, s0, s1 =>
    readerBlocksLoop args wp0 wp1 args.num_blocks s0 s1 ++
    readerBatchesLoop args wp0 wp1 b (addw s0 args.MtKt)
      (if args.bcast_B = 0 then addw s1 args.KtNt else s1)

/-- The event trace of the reader's `kernel_main`. -/
def reader_kernel_main (args : ReaderArgs) (wp0 wp1 : Nat) : List REv :=
  readerBatchesLoop args wp0 wp1 args.batch
    args.in0_tensor_start_tile_id args.in1_tensor_start_tile_id

/-- Temporal check for claim C2, scanning a reader trace while tracking the
`(cb, addr)` pairs of reads issued since the last barrier: every decode
must target a tile whose read is no longer outstanding (a barrier has
intervened since its issue). -/
def readsSettledFrom : List REv → List (Nat × Nat) → Bool
  | [], _ => true
  | REv.issue cb _ addr :: r, out => readsSettledFrom r ((cb, addr) :: out)
  | REv.barrier :: r, _ => readsSettledFrom r []
  | REv.decode cb addr :: r, out =>
      (!(out.contains (cb, addr))) && readsSettledFrom r out
  | _ :: r, out => readsSettledFrom r out

/-- A reader trace is settled when no decode runs on a tile whose read
transfer is still outstanding. -/
def readsSettled (t : List REv) : Bool := readsSettledFrom t []

/-- The tile-index sequence the reader issues for circular buffer `cb`. -/
def readerIssuedIds (cb : Nat) (t : List REv) : List Nat :=
  t.filterMap fun e => match e with
    | REv.issue cb2 tid _ => if cb2 = cb then some tid else none
    | _ => none

/-- The tile-index sequence claim C7 specifies for a reader operand: for
each batch, block, row and column in lexicographic order, the start plus
the level strides, in 32-bit arithmetic. -/
def readerSpecIds (start bStride blkStride hStride wStride batch blocks H W : Nat) :
    List Nat :=
  (List.range batch).flatMap fun b => (List.range blocks).flatMap fun blk =>
    (List.range H).flatMap fun h => (List.range W).map fun w =>
      (start + b * bStride + blk * blkStride + h * hStride + w * wStride) % M32

/-- Observable actions of the writer kernel: waiting on filled output
slots (`cb_wait_front`), issuing one asynchronous write carrying the given
number of words read from the given L1 word address, the write barrier,
and releasing the slots (`cb_pop_front`). -/
inductive WEv where
  | wait (cb n : Nat)
  | writeIssue (tileId addr sizeWords : Nat) (payload : List Nat)
  | barrier
  | pop (cb n : Nat)
deriving DecidableEq

/-- Runtime arguments of `kernel_main` in `writer_bmm_tile_layout.cpp`
(arguments 1-13 plus the tile size from `get_tile_size`, in words), and
the stack address of the scratch buffer `mxfp4_buffer`. -/
structure WriterArgs where
  out_tensor_start_tile_id : Nat
  out_tensor_stride_w : Nat
  out_tensor_stride_h : Nat
  out_tensor_next_subblock_stride_w : Nat
  out_tensor_next_subblock_stride_h : Nat
  out_subblock_w : Nat
  out_subblock_h : Nat
  out_subblock_tile_count : Nat
  out_num_subblocks_w : Nat
  out_num_subblocks_h : Nat
  MtNt : Nat
  batch : Nat
  out_is_mxfp4 : Nat
  tile_elements : Nat
  scratch_base : Nat

/-- One output-tile step of the writer (writer lines 99-114): with the
MXFP4 flag set, encode the staged tile into the scratch buffer, then issue
a write of `(tile_elements / 32) * 5` words sourced from the staged tile
address `addr` (the source's `l1_read_addr`); otherwise issue a full-tile
write. The payload is the word sequence the transfer carries. -/
def writerTileStep (m : Mem) (args : WriterArgs) (tid addr : Nat) : WEv × Mem :=
  if args.out_is_mxfp4 ≠ 0 then
    let m2 := convert_fp32_to_mxfp4_tile addr args.scratch_base args.tile_elements m
    (WEv.writeIssue tid addr (args.tile_elements / 32 * 5)
      ((List.range (args.tile_elements / 32 * 5)).map fun k => m2 (addr + k)), m2)
  else
    (WEv.writeIssue tid addr args.tile_elements
      ((List.range args.tile_elements).map fun k => m (addr + k)), m)

/-- Inner `w` loop of the writer (lines 98-118): one tile per column,
advancing the tile id by the column stride and the L1 address by one
tile. -/
def writerRowLoop (args : WriterArgs) :
    Nat → Nat → Nat → Mem → List WEv × Nat × Mem
  | 0, _, addr, m => ([], addr, m)
  | w + 1, tid, addr, m =>
    let step := writerTileStep m args tid addr
    let rest := writerRowLoop args w (addw tid args.out_tensor_stride_w)
      (addr + args.tile_elements) step.2
    (step.1 :: rest.1, rest.2)

/-- The `h` loop of the writer (lines 96-120): one row per iteration,
advancing the row start by the row stride; the L1 address carries across
rows of one subblock. -/
def writerRowsLoop (args : WriterArgs) :
    Nat → Nat → Nat → Mem → List WEv × Nat × Mem
  | 0, _, addr, m => ([], addr, m)
  | h + 1, rowStart, addr, m =>
    let row := writerRowLoop args args.out_subblock_w rowStart addr m
    let rest := writerRowsLoop args h (addw rowStart args.out_tensor_stride_h)
      row.2.1 row.2.2
    (row.1 ++ rest.1, rest.2)

/-- The `sbw` loop of the writer (lines 90-125): per subblock, wait for
the compute stage's output slots, take the read pointer `rp`, emit the
subblock's tiles, then the write barrier and the slot release; the subblock
start advances by the subblock column stride. -/
def writerSbwLoop (args : WriterArgs) (rp : Nat) :
    Nat → Nat → Mem → List WEv × Mem
  | 0, _, m => ([], m)
  | sbw + 1, sbwStart, m =>
    let rows := writerRowsLoop args args.out_subblock_h sbwStart rp m
    let rest := writerSbwLoop args rp sbw
      (addw sbwStart args.out_tensor_next_subblock_stride_w) rows.2.2
    ((WEv.wait 16 args.out_subblock_tile_count :: rows.1 ++
      [WEv.barrier, WEv.pop 16 args.out_subblock_tile_count]) ++ rest.1, rest.2)

/-- The `sbh` loop of the writer (lines 88-127): the subblock-row start
advances by the subblock row stride. -/
def writerSbhLoop (args : WriterArgs) (rp : Nat) :
    Nat → Nat → Mem → List WEv × Mem
  | 0, _, m => ([], m)
  | sbh + 1, sbhStart, m =>
    let sb := writerSbwLoop args rp args.out_num_subblocks_w sbhStart m
    let rest := writerSbhLoop args rp sbh
      (addw sbhStart args.out_tensor_next_subblock_stride_h) sb.2
    (sb.1 ++ rest.1, rest.2)

/-- The `batch` loop of the writer (lines 86-129): the output start
advances by `MtNt` after every batch. -/
def writerBatchesLoop (args : WriterArgs) (rp : Nat) :
    Nat → Nat → Mem → List WEv × Mem
  | 0, _, m => ([], m)
  | b + 1, start, m =>
    let bt := writerSbhLoop args rp args.out_num_subblocks_h start m
    let rest := writerBatchesLoop args rp b (addw start args.MtNt) bt.2
    (bt.1 ++ rest.1, rest.2)

/-- The event trace of the writer's `kernel_main`, over the staged L1
contents `m` and the circular buffer's read pointer `rp`. -/
def writer_kernel_main (args : WriterArgs) (rp : Nat) (m : Mem) : List WEv :=
  (writerBatchesLoop args rp args.batch args.out_tensor_start_tile_id m).1

/-- The tile-index sequence the writer issues. -/
def writerIssuedIds (t : List WEv) : List Nat :=
  t.filterMap fun e => match e with
    | WEv.writeIssue tid _ _ _ => some tid
    | _ => none

/-- The tile-index sequence claim C7 specifies for the writer: for each
batch, subblock row, subblock column, row and column in lexicographic
order, the start plus the level strides, in 32-bit arithmetic. -/
def writerSpecIds (start bStride sbhStride sbwStride hStride wStride
    batch NH NW H W : Nat) : List Nat :=
  (List.range batch).flatMap fun b => (List.range NH).flatMap fun sbh =>
    (List.range NW).flatMap fun sbw => (List.range H).flatMap fun h =>
      (List.range W).map fun w =>
        (start + b * bStride + sbh * sbhStride + sbw * sbwStride +
          h * hStride + w * wStride) % M32

/-- Sum of 4-bit magnitudes placed at successive nibbles (proof-side view
of a packed magnitude word). -/
def nibbleSum (f : Nat → Nat) (c : Nat) : Nat :=
  ∑ k ∈ Finset.range c, f k * 16 ^ k

/-- Failing input for claim C1: a two-group (64-element) tile whose
compact data has group 0 entirely zero and group 1 with shared exponent 1
and first magnitude 1 (word 5 of the buffer is `1 << 24`, word 6 is 1). -/
def c1mem : Mem := fun a => if a = 5 then 16777216 else if a = 6 then 1 else 0

/-- Failing input for claim C2: one batch, one block, 1x1 blocks for both
operands, with in0 flagged MXFP4. -/
def c2args : ReaderArgs where
  in0_tensor_start_tile_id := 7
  in0_tensor_stride_w := 1
  in0_tensor_stride_h := 1
  in0_tensor_next_block_stride := 1
  in0_block_w := 1
  in0_block_h := 1
  in0_block_num_tiles := 1
  in1_tensor_start_tile_id := 9
  in1_tensor_stride_w := 1
  in1_tensor_stride_h := 1
  in1_tensor_next_block_stride := 1
  in1_block_w := 1
  in1_block_h := 1
  in1_block_num_tiles := 1
  num_blocks := 1
  MtKt := 0
  KtNt := 0
  batch := 1
  bcast_B := 0
  in0_is_mxfp4 := 1
  in1_is_mxfp4 := 0
  in0_single_tile_size_bytes := 4096
  in1_single_tile_size_bytes := 4096

/-- Failing input for claim C3: a 32-element staged tile at L1 address 0
whose first word is `(5 << 23) | (1 << 19)` (exponent 5, top mantissa
nibble 1) and the writer flagged MXFP4, scratch buffer at address 1000. -/
def c3mem : Mem := fun a => if a = 0 then 42467328 else 0

/-- Writer arguments for the claim C3 failing input. -/
def c3args : WriterArgs where
  out_tensor_start_tile_id := 0
  out_tensor_stride_w := 1
  out_tensor_stride_h := 1
  out_tensor_next_subblock_stride_w := 1
  out_tensor_next_subblock_stride_h := 1
  out_subblock_w := 1
  out_subblock_h := 1
  out_subblock_tile_count := 1
  out_num_subblocks_w := 1
  out_num_subblocks_h := 1
  MtNt := 0
  batch := 1
  out_is_mxfp4 := 1
  tile_elements := 32
  scratch_base := 1000

theorem upd_same (m : Mem) (a v : Nat) : upd m a v a = v := by simp [upd]

theorem upd_ne (m : Mem) (a v x : Nat) (h : x ≠ a) : upd m a v x = m x := by
  simp [upd, h]

/-- C1: the spec requires that decoding with source and destination aliased
to the same buffer produce the same destination contents as decoding into a
separate scratch buffer, for any tile of at least two groups. The code
violates this: on the two-group tile `c1mem`, the aliased in-place decode
zeroes group 1's compact words (buffer words 5 and 6) while expanding
group 0, so element 32 decodes to 0, whereas the scratch-buffer decode
yields `(1 << 23) | (1 << 19) = 8912896` there. -/
theorem c1_aliased_decode_differs :
    (convert_mxfp4_to_fp32_tile 0 0 64 c1mem) 32 = 0 ∧
    (convert_mxfp4_to_fp32_tile 0 100 64 c1mem) 132 = 8912896 ∧
    (convert_mxfp4_to_fp32_tile 0 0 64 c1mem) 32 ≠
      (convert_mxfp4_to_fp32_tile 0 100 64 c1mem) 132 := by
  refine ⟨by decide, by decide, by decide⟩

/-- C2: the claim requires a barrier between each MXFP4 tile's read issue
and its in-place decode. The reader instead decodes immediately after
issuing the asynchronous read (reader lines 108-115), with the only
barrier at the end of the block (line 144): on `c2args` (one 1x1 block,
in0 flagged MXFP4) the trace decodes tile (cb 0, addr 500) while its read
is still outstanding, so the settledness check fails. -/
theorem c2_decode_before_barrier :
    reader_kernel_main c2args 500 800 =
      [REv.reserve 0 1, REv.reserve 1 1, REv.issue 0 7 500, REv.decode 0 500,
       REv.issue 1 9 800, REv.barrier, REv.push 0 1, REv.push 1 1] ∧
    readsSettled (reader_kernel_main c2args 500 800) = false := by
  refine ⟨by decide, by decide⟩

/-- C3: with the MXFP4 flag set the writer encodes the staged tile into
the stack scratch buffer but then issues the write from `l1_read_addr`
(the staged full-precision tile) rather than from the scratch buffer
(writer lines 107-111). On `c3mem` the issued payload is the first five
raw FP32 words `[42467328, 0, 0, 0, 0]`, not the encoded compact words
`[83886080, 1, 0, 0, 0]`; the transfer length is the compact size
`(32 / 32) * 5 = 5` words as claimed. -/
theorem c3_payload_is_raw_not_encoded :
    (writerTileStep c3mem c3args 0 0).1 =
      WEv.writeIssue 0 0 5 [42467328, 0, 0, 0, 0] ∧
    ((List.range 5).map fun k =>
      (convert_fp32_to_mxfp4_tile 0 1000 32 c3mem) (1000 + k)) =
      [83886080, 1, 0, 0, 0] ∧
    (writerTileStep c3mem c3args 0 0).1 ≠
      WEv.writeIssue 0 0 5 ((List.range 5).map fun k =>
        (convert_fp32_to_mxfp4_tile 0 1000 32 c3mem) (1000 + k)) := by
  refine ⟨by decide, by decide, by decide⟩

theorem lor_shiftLeft_eq_add (x y s : Nat) (h : x < 2 ^ s) :
    x ||| (y <<< s) = x + y * 2 ^ s := by
  apply Nat.eq_of_testBit_eq
  intro i
  rw [Nat.testBit_lor]
  rcases Nat.lt_or_ge i s with hi | hi
  · have hsh : Nat.testBit (y <<< s) i = false := by
      rw [Nat.testBit_shiftLeft]
      simp [Nat.not_le.mpr hi]
    have h2 := Nat.testBit_mod_two_pow (x + y * 2 ^ s) s i
    rw [Nat.add_mul_mod_self_right, Nat.mod_eq_of_lt h] at h2
    simp [hi] at h2
    rw [hsh, ← h2, Bool.or_false]
  · have hx0 : Nat.testBit x i = false :=
      Nat.testBit_lt_two_pow (lt_of_lt_of_le h (Nat.pow_le_pow_right (by norm_num) hi))
    have hsh : Nat.testBit (y <<< s) i = Nat.testBit y (i - s) := by
      rw [Nat.testBit_shiftLeft]
      simp [hi]
    have hdiv : (x + y * 2 ^ s) / 2 ^ s = y := by
      rw [Nat.add_mul_div_right _ _ (Nat.pos_pow_of_pos s (by norm_num)),
        Nat.div_eq_of_lt h]
      omega
    have h3 := Nat.testBit_shiftRight (x + y * 2 ^ s) (i := s) (j := i - s)
    rw [Nat.shiftRight_eq_div_pow, hdiv] at h3
    rw [hx0, hsh, Bool.false_or, h3]
    congr 1
    omega

theorem pow16_eq_pow2 (r : Nat) : (16 : Nat) ^ r = 2 ^ (r * 4) := by
  rw [Nat.mul_comm r 4, Nat.pow_mul]

theorem lor_nibble_shift (x v r : Nat) (hx : x < 16 ^ r) :
    x ||| (v <<< (r * 4)) = x + v * 16 ^ r := by
  rw [pow16_eq_pow2] at hx ⊢
  exact lor_shiftLeft_eq_add x v (r * 4) hx

theorem mantTop4_lt_16 (v : Nat) : mantTop4 v < 16 := by
  have h1 : v &&& 0x7FFFFF = v % 8388608 := Nat.and_pow_two_sub_one_eq_mod v 23
  have h2 : (v % 8388608) >>> 19 = v % 8388608 / 524288 :=
    Nat.shiftRight_eq_div_pow _ 19
  rw [mantTop4, h1, h2]
  omega

theorem encodeMag_lt_16 (maxExp v : Nat) : encodeMag maxExp v < 16 := by
  rw [encodeMag]
  split
  · split
    · calc mantTop4 v >>> (maxExp - expField v)
          = mantTop4 v / 2 ^ (maxExp - expField v) :=
            Nat.shiftRight_eq_div_pow _ _
        _ ≤ mantTop4 v := Nat.div_le_self _ _
        _ < 16 := mantTop4_lt_16 v
    · norm_num
  · norm_num

theorem expField_lt_256 (v : Nat) : expField v < 256 := by
  have h1 : (v >>> 23) &&& 0xFF = (v >>> 23) % 256 :=
    Nat.and_pow_two_sub_one_eq_mod _ 8
  rw [expField, h1]
  omega

theorem maxExpAcc_lt_256 (acc v : Nat) (h : acc < 256) : maxExpAcc acc v < 256 := by
  rw [maxExpAcc]
  split
  · split
    · exact expField_lt_256 v
    · exact h
  · exact h

theorem foldMaxExp_lt_256 (g : Nat → Nat) (l : List Nat) (acc : Nat) (h : acc < 256) :
    l.foldl (fun acc j => maxExpAcc acc (g j)) acc < 256 := by
  induction l generalizing acc with
  | nil => simpa using h
  | cons j r ih => exact ih _ (maxExpAcc_lt_256 _ _ h)

theorem groupMaxExp_lt_256 (src i : Nat) (m : Mem) : groupMaxExp src i m < 256 := by
  rw [groupMaxExp]
  exact foldMaxExp_lt_256 (fun j => m (src + i * MXFP4_BLOCK_SIZE + j)) _ 0 (by norm_num)

theorem nibbleSum_lt (f : Nat → Nat) (c : Nat) (hf : ∀ k, k < c → f k < 16) :
    nibbleSum f c < 16 ^ c := by
  induction c with
  | zero => simp [nibbleSum]
  | succ c ih =>
    rw [nibbleSum, Finset.sum_range_succ]
    have h1 : nibbleSum f c < 16 ^ c := ih (fun k hk => hf k (by omega))
    have h2 : f c < 16 := hf c (by omega)
    have h3 : (16 : Nat) ^ (c + 1) = 16 ^ c * 16 := by ring
    rw [nibbleSum] at h1
    calc (∑ k ∈ Finset.range c, f k * 16 ^ k) + f c * 16 ^ c
        < 16 ^ c + f c * 16 ^ c := by omega
      _ ≤ 16 ^ c + 15 * 16 ^ c := by
          have : f c * 16 ^ c ≤ 15 * 16 ^ c := Nat.mul_le_mul_right _ (by omega)
          omega
      _ = 16 ^ c * 16 := by ring
      _ = 16 ^ (c + 1) := h3.symm

theorem nibbleSum_succ (f : Nat → Nat) (c : Nat) :
    nibbleSum f (c + 1) = nibbleSum f c + f c * 16 ^ c := by
  rw [nibbleSum, nibbleSum, Finset.sum_range_succ]

theorem nibbleSum_extract (f : Nat → Nat) (hf : ∀ k, k < 8 → f k < 16)
    (r : Nat) (hr : r < 8) :
    (nibbleSum f 8 >>> (r * 4)) &&& 0x0F = f r := by
  have h0 := hf 0 (by omega)
  have h1 := hf 1 (by omega)
  have h2 := hf 2 (by omega)
  have h3 := hf 3 (by omega)
  have h4 := hf 4 (by omega)
  have h5 := hf 5 (by omega)
  have h6 := hf 6 (by omega)
  have h7 := hf 7 (by omega)
  have hsum : nibbleSum f 8 =
      f 0 + f 1 * 16 + f 2 * 256 + f 3 * 4096 + f 4 * 65536 +
      f 5 * 1048576 + f 6 * 16777216 + f 7 * 268435456 := by
    rw [nibbleSum]
    rw [Finset.sum_range_succ, Finset.sum_range_succ, Finset.sum_range_succ,
      Finset.sum_range_succ, Finset.sum_range_succ, Finset.sum_range_succ,
      Finset.sum_range_succ, Finset.sum_range_succ, Finset.sum_range_zero]
    norm_num
  have hand : ∀ z : Nat, z &&& 0x0F = z % 16 := fun z =>
    Nat.and_pow_two_sub_one_eq_mod z 4
  have hshift : ∀ z : Nat, z >>> (r * 4) = z / 2 ^ (r * 4) := fun z =>
    Nat.shiftRight_eq_div_pow z (r * 4)
  rw [hsum, hshift, hand]
  interval_cases r <;> norm_num <;> omega

theorem decodeWord_zero (e : Nat) : decodeWord e 0 = 0 := by
  simp [decodeWord]

theorem decodeWord_eq_add (e v : Nat) (hv : v < 16) (hvne : v ≠ 0) :
    decodeWord e v = v * 524288 + e * 8388608 := by
  rw [decodeWord, if_neg hvne, Nat.lor_comm]
  have hlt : v <<< 19 < 2 ^ 23 := by
    rw [Nat.shiftLeft_eq]
    norm_num
    omega
  have := lor_shiftLeft_eq_add (v <<< 19) e 23 hlt
  rw [this, Nat.shiftLeft_eq]
  norm_num

theorem decodeWord_mantTop4 (e v : Nat) (hv : v < 16) :
    mantTop4 (decodeWord e v) = v := by
  by_cases hvz : v = 0
  · subst hvz
    rw [decodeWord_zero]
    rw [mantTop4]
    decide
  · rw [decodeWord_eq_add e v hv hvz, mantTop4]
    have hand : (v * 524288 + e * 8388608) &&& 0x7FFFFF =
        (v * 524288 + e * 8388608) % 8388608 :=
      Nat.and_pow_two_sub_one_eq_mod _ 23
    have hsh : ∀ z : Nat, z >>> 19 = z / 524288 := fun z =>
      Nat.shiftRight_eq_div_pow z 19
    rw [hand, hsh]
    omega

theorem decodeWord_expField (e v : Nat) (hv : v < 16) (he : e < 256)
    (hvne : v ≠ 0) : expField (decodeWord e v) = e := by
  rw [decodeWord_eq_add e v hv hvne, expField]
  have hsh : ∀ z : Nat, z >>> 23 = z / 8388608 := fun z =>
    Nat.shiftRight_eq_div_pow z 23
  have hand : ∀ z : Nat, z &&& 0xFF = z % 256 := fun z =>
    Nat.and_pow_two_sub_one_eq_mod z 8
  rw [hsh, hand]
  omega

theorem packFold_frame (src dst i maxExp : Nat) (m : Mem) (n : Nat) (hn : n ≤ 32)
    (a : Nat) (ha : ∀ w, 1 ≤ w → w ≤ 4 → a ≠ dst + i * 5 + w) :
    (List.range n).foldl (encodePackStep src dst i maxExp) m a = m a := by
  induction n with
  | zero => simp
  | succ k ih =>
    rw [List.range_succ, List.foldl_append, List.foldl_cons, List.foldl_nil]
    simp only [encodePackStep, MXFP4_BLOCK_SIZE]
    have hne : a ≠ dst + i * 5 + k / 8 + 1 := by
      have := ha (k / 8 + 1) (by omega) (by omega)
      omega
    rw [upd_ne _ _ _ _ hne]
    exact ih (by omega)

theorem packFold_word (src dst i maxExp : Nat) (m : Mem)
    (hdisj : ∀ j, j < 32 → ∀ w, 1 ≤ w → w ≤ 4 →
      src + i * 32 + j ≠ dst + i * 5 + w)
    (hz : ∀ w, 1 ≤ w → w ≤ 4 → m (dst + i * 5 + w) = 0)
    (n : Nat) (hn : n ≤ 32) (t : Nat) (ht : t < 4) :
    (List.range n).foldl (encodePackStep src dst i maxExp) m (dst + i * 5 + (t + 1))
      = nibbleSum (fun k => encodeMag maxExp (m (src + i * 32 + (8 * t + k))))
          (min 8 (n - 8 * t)) := by
  induction n with
  | zero =>
    simp only [List.range_zero, List.foldl_nil]
    have hmin : min 8 (0 - 8 * t) = 0 := by omega
    rw [hmin]
    have hz' := hz (t + 1) (by omega) (by omega)
    simpa [nibbleSum] using hz'
  | succ k ih =>
    rw [List.range_succ, List.foldl_append, List.foldl_cons, List.foldl_nil]
    by_cases hkt : k / 8 = t
    · have hk1 : k < 32 := by omega
      have haddr : dst + i * 5 + (t + 1) = dst + i * 5 + k / 8 + 1 := by omega
      simp only [encodePackStep, MXFP4_BLOCK_SIZE]
      rw [haddr, upd_same]
      have hsrc : (List.range k).foldl (encodePackStep src dst i maxExp) m
          (src + i * 32 + k) = m (src + i * 32 + k) :=
        packFold_frame src dst i maxExp m k (by omega) _
          (fun w hw1 hw2 => hdisj k hk1 w hw1 hw2)
      have hword := ih (by omega)
      rw [haddr] at hword
      rw [hsrc, hword]
      have hmin : min 8 (k - 8 * t) = k % 8 := by omega
      rw [hmin]
      have hlt : nibbleSum
          (fun k2 => encodeMag maxExp (m (src + i * 32 + (8 * t + k2)))) (k % 8)
          < 16 ^ (k % 8) :=
        nibbleSum_lt _ _ (fun k2 _ => encodeMag_lt_16 _ _)
      rw [lor_nibble_shift _ _ _ hlt]
      have hmin2 : min 8 (k + 1 - 8 * t) = k % 8 + 1 := by omega
      rw [hmin2, nibbleSum_succ]
      have harg : src + i * 32 + (8 * t + k % 8) = src + i * 32 + k := by omega
      rw [harg]
    · have hne : dst + i * 5 + (t + 1) ≠ dst + i * 5 + k / 8 + 1 := by omega
      simp only [encodePackStep, MXFP4_BLOCK_SIZE]
      rw [upd_ne _ _ _ _ hne]
      have hmin : min 8 (k + 1 - 8 * t) = min 8 (k - 8 * t) := by omega
      rw [hmin]
      exact ih (by omega)

theorem nibbleSum_congr (f g : Nat → Nat) (c : Nat) (h : ∀ k, k < c → f k = g k) :
    nibbleSum f c = nibbleSum g c := by
  rw [nibbleSum, nibbleSum]
  exact Finset.sum_congr rfl (fun k hk => by rw [h k (Finset.mem_range.mp hk)])

theorem decFold_frame (src dst i sharedExp : Nat) (m : Mem) (n : Nat) (hn : n ≤ 32)
    (a : Nat) (ha : ∀ j, j < 32 → a ≠ dst + i * 32 + j) :
    (List.range n).foldl (decodeStep src dst i sharedExp) m a = m a := by
  induction n with
  | zero => simp
  | succ k ih =>
    rw [List.range_succ, List.foldl_append, List.foldl_cons, List.foldl_nil]
    simp only [decodeStep, MXFP4_BLOCK_SIZE]
    rw [upd_ne _ _ _ _ (ha k (by omega))]
    exact ih (by omega)

theorem decFold_write (src dst i sharedExp : Nat) (m : Mem)
    (hdisj : ∀ j, j < 32 → ∀ w, w ≤ 4 → dst + i * 32 + j ≠ src + i * 5 + w)
    (n : Nat) (hn : n ≤ 32) (j0 : Nat) (hj0 : j0 < n) :
    (List.range n).foldl (decodeStep src dst i sharedExp) m (dst + i * 32 + j0)
      = decodeWord sharedExp
          ((m (src + i * 5 + j0 / 8 + 1) >>> (j0 % 8 * 4)) &&& 0x0F) := by
  induction n with
  | zero => omega
  | succ k ih =>
    rw [List.range_succ, List.foldl_append, List.foldl_cons, List.foldl_nil]
    simp only [decodeStep, MXFP4_BLOCK_SIZE]
    by_cases hjk : j0 = k
    · subst hjk
      rw [upd_same]
      have hr : (List.range j0).foldl (decodeStep src dst i sharedExp) m
          (src + i * 5 + j0 / 8 + 1) = m (src + i * 5 + j0 / 8 + 1) := by
        apply decFold_frame src dst i sharedExp m j0 (by omega)
        intro j hj
        have := hdisj j hj (j0 / 8 + 1) (by omega)
        omega
      rw [hr]
    · have hne : dst + i * 32 + j0 ≠ dst + i * 32 + k := by omega
      rw [upd_ne _ _ _ _ hne]
      exact ih (by omega) (by omega)

theorem encodeGroup_frame (src dst : Nat) (m : Mem) (i : Nat)
    (a : Nat) (ha : ∀ w, w ≤ 4 → a ≠ dst + i * 5 + w) :
    encodeGroup src dst m i a = m a := by
  simp only [encodeGroup, MXFP4_BLOCK_SIZE]
  rw [packFold_frame _ _ _ _ _ 32 (by omega) _ (fun w h1 h2 => ha w (by omega))]
  exact upd_ne _ _ _ _ (by have := ha 0 (by omega); omega)

theorem encodeGroup_expWord (src dst : Nat) (m : Mem) (i : Nat) :
    encodeGroup src dst m i (dst + i * 5) = groupMaxExp src i m <<< 24 := by
  simp only [encodeGroup, MXFP4_BLOCK_SIZE]
  rw [packFold_frame _ _ _ _ _ 32 (by omega) _ (fun w h1 h2 => by omega)]
  exact upd_same _ _ _

theorem encodeGroup_magWord (src dst : Nat) (m : Mem) (i : Nat)
    (hdisj : ∀ j, j < 32 → ∀ w, w ≤ 4 → src + i * 32 + j ≠ dst + i * 5 + w)
    (hz : ∀ w, 1 ≤ w → w ≤ 4 → m (dst + i * 5 + w) = 0)
    (t : Nat) (ht : t < 4) :
    encodeGroup src dst m i (dst + i * 5 + (t + 1))
      = nibbleSum (fun k => encodeMag (groupMaxExp src i m)
          (m (src + i * 32 + (8 * t + k)))) 8 := by
  simp only [encodeGroup, MXFP4_BLOCK_SIZE]
  have hz2 : ∀ w, 1 ≤ w → w ≤ 4 →
      (upd m (dst + i * 5) (groupMaxExp src i m <<< 24)) (dst + i * 5 + w) = 0 := by
    intro w hw1 hw2
    rw [upd_ne _ _ _ _ (by omega)]
    exact hz w hw1 hw2
  have h1 := packFold_word src dst i (groupMaxExp src i m)
      (upd m (dst + i * 5) (groupMaxExp src i m <<< 24))
      (fun j hj w hw1 hw2 => hdisj j hj w (by omega)) hz2 32 (by omega) t ht
  have hmin : min 8 (32 - 8 * t) = 8 := by omega
  rw [hmin] at h1
  rw [h1]
  apply nibbleSum_congr
  intro k hk
  rw [upd_ne _ _ _ _ (by have := hdisj (8 * t + k) (by omega) 0 (by omega); omega)]

theorem decodeGroup_frame (src dst : Nat) (m : Mem) (i : Nat)
    (a : Nat) (ha : ∀ j, j < 32 → a ≠ dst + i * 32 + j) :
    decodeGroup src dst m i a = m a := by
  simp only [decodeGroup, MXFP4_BLOCK_SIZE]
  exact decFold_frame _ _ _ _ _ 32 (by omega) _ ha

theorem decodeGroup_write (src dst : Nat) (m : Mem) (i : Nat)
    (hdisj : ∀ j, j < 32 → ∀ w, w ≤ 4 → dst + i * 32 + j ≠ src + i * 5 + w)
    (j : Nat) (hj : j < 32) :
    decodeGroup src dst m i (dst + i * 32 + j)
      = decodeWord ((m (src + i * 5) >>> 24) &&& 0xFF)
          ((m (src + i * 5 + j / 8 + 1) >>> (j % 8 * 4)) &&& 0x0F) := by
  simp only [decodeGroup, MXFP4_BLOCK_SIZE]
  exact decFold_write _ _ _ _ _ hdisj 32 (by omega) j hj

theorem foldMaxExp_congr (g1 g2 : Nat → Nat) (l : List Nat)
    (h : ∀ j ∈ l, g1 j = g2 j) (acc : Nat) :
    l.foldl (fun acc j => maxExpAcc acc (g1 j)) acc
      = l.foldl (fun acc j => maxExpAcc acc (g2 j)) acc := by
  apply List.foldl_ext
  intro a b hb
  rw [h b hb]

theorem groupMaxExp_congr (src i : Nat) (m1 m2 : Mem)
    (h : ∀ j, j < 32 → m1 (src + i * 32 + j) = m2 (src + i * 32 + j)) :
    groupMaxExp src i m1 = groupMaxExp src i m2 := by
  simp only [groupMaxExp, MXFP4_BLOCK_SIZE]
  apply foldMaxExp_congr
  intro j hj
  exact h j (List.mem_range.mp hj)

theorem encodeTile_frame (src dst : Nat) (m : Mem) (g : Nat)
    (a : Nat) (ha : ∀ q, q < 5 * g → a ≠ dst + q) :
    (List.range g).foldl (encodeGroup src dst) m a = m a := by
  induction g with
  | zero => simp
  | succ k ih =>
    rw [List.range_succ, List.foldl_append, List.foldl_cons, List.foldl_nil]
    rw [encodeGroup_frame src dst _ k a
      (fun w hw => by have := ha (k * 5 + w) (by omega); omega)]
    exact ih (fun q hq => ha q (by omega))

theorem encodeTile_expWord (src dst : Nat) (m : Mem) (g : Nat)
    (hdisj : ∀ p, p < 32 * g → ∀ q, q < 5 * g → src + p ≠ dst + q)
    (i0 : Nat) (hi0 : i0 < g) :
    (List.range g).foldl (encodeGroup src dst) m (dst + i0 * 5)
      = groupMaxExp src i0 m <<< 24 := by
  induction g with
  | zero => omega
  | succ k ih =>
    rw [List.range_succ, List.foldl_append, List.foldl_cons, List.foldl_nil]
    by_cases hik : i0 = k
    · subst hik
      rw [encodeGroup_expWord]
      congr 1
      apply groupMaxExp_congr
      intro j hj
      exact encodeTile_frame src dst m i0 _
        (fun q hq => by have := hdisj (i0 * 32 + j) (by omega) q (by omega); omega)
    · rw [encodeGroup_frame src dst _ k _ (fun w hw => by omega)]
      exact ih (fun p hp q hq => hdisj p (by omega) q (by omega)) (by omega)

theorem encodeTile_magWord (src dst : Nat) (m : Mem) (g : Nat)
    (hdisj : ∀ p, p < 32 * g → ∀ q, q < 5 * g → src + p ≠ dst + q)
    (hz : ∀ q, q < 5 * g → m (dst + q) = 0)
    (i0 : Nat) (hi0 : i0 < g) (t : Nat) (ht : t < 4) :
    (List.range g).foldl (encodeGroup src dst) m (dst + i0 * 5 + (t + 1))
      = nibbleSum (fun k => encodeMag (groupMaxExp src i0 m)
          (m (src + i0 * 32 + (8 * t + k)))) 8 := by
  induction g with
  | zero => omega
  | succ k ih =>
    rw [List.range_succ, List.foldl_append, List.foldl_cons, List.foldl_nil]
    by_cases hik : i0 = k
    · subst hik
      have hfr : ∀ x, x < 32 → (List.range i0).foldl (encodeGroup src dst) m
          (src + i0 * 32 + x) = m (src + i0 * 32 + x) := by
        intro x hx
        exact encodeTile_frame src dst m i0 _
          (fun q hq => by have := hdisj (i0 * 32 + x) (by omega) q (by omega); omega)
      rw [encodeGroup_magWord src dst _ i0
        (fun j hj w hw => by
          have := hdisj (i0 * 32 + j) (by omega) (i0 * 5 + w) (by omega)
          omega)
        (fun w hw1 hw2 => by
          rw [encodeTile_frame src dst m i0 _ (fun q hq => by omega)]
          have h5 := hz (i0 * 5 + w) (by omega)
          rw [show dst + i0 * 5 + w = dst + (i0 * 5 + w) from by omega]
          exact h5) t ht]
      have hmax : groupMaxExp src i0 ((List.range i0).foldl (encodeGroup src dst) m)
          = groupMaxExp src i0 m :=
        groupMaxExp_congr src i0 _ _ (fun j hj => hfr j hj)
      rw [hmax]
      apply nibbleSum_congr
      intro k2 hk2
      rw [hfr (8 * t + k2) (by omega)]
    · rw [encodeGroup_frame src dst _ k _ (fun w hw => by omega)]
      exact ih (fun p hp q hq => hdisj p (by omega) q (by omega))
        (fun q hq => hz q (by omega)) (by omega)

theorem decodeTile_frame (src dst : Nat) (m : Mem) (g : Nat)
    (a : Nat) (ha : ∀ q, q < 32 * g → a ≠ dst + q) :
    (List.range g).foldl (decodeGroup src dst) m a = m a := by
  induction g with
  | zero => simp
  | succ k ih =>
    rw [List.range_succ, List.foldl_append, List.foldl_cons, List.foldl_nil]
    rw [decodeGroup_frame src dst _ k a
      (fun j hj => by have := ha (k * 32 + j) (by omega); omega)]
    exact ih (fun q hq => ha q (by omega))

theorem decodeTile_write (src dst : Nat) (m : Mem) (g : Nat)
    (hdisj : ∀ p, p < 5 * g → ∀ q, q < 32 * g → dst + q ≠ src + p)
    (i0 : Nat) (hi0 : i0 < g) (j : Nat) (hj : j < 32) :
    (List.range g).foldl (decodeGroup src dst) m (dst + i0 * 32 + j)
      = decodeWord ((m (src + i0 * 5) >>> 24) &&& 0xFF)
          ((m (src + i0 * 5 + j / 8 + 1) >>> (j % 8 * 4)) &&& 0x0F) := by
  induction g with
  | zero => omega
  | succ k ih =>
    rw [List.range_succ, List.foldl_append, List.foldl_cons, List.foldl_nil]
    by_cases hik : i0 = k
    · subst hik
      rw [decodeGroup_write src dst _ i0
        (fun j2 hj2 w hw => by
          have := hdisj (i0 * 5 + w) (by omega) (i0 * 32 + j2) (by omega)
          omega)
        j hj]
      have hfr : ∀ w, w ≤ 4 → (List.range i0).foldl (decodeGroup src dst) m
          (src + i0 * 5 + w) = m (src + i0 * 5 + w) := by
        intro w hw
        exact decodeTile_frame src dst m i0 _
          (fun q hq => by have := hdisj (i0 * 5 + w) (by omega) q (by omega); omega)
      have e0 : src + i0 * 5 = src + i0 * 5 + 0 := by omega
      rw [e0, hfr 0 (by omega)]
      have e1 : src + i0 * 5 + 0 + j / 8 + 1 = src + i0 * 5 + (j / 8 + 1) := by omega
      rw [e1, hfr (j / 8 + 1) (by omega)]
    · rw [decodeGroup_frame src dst _ k _ (fun j2 hj2 => by omega)]
      exact ih (fun p hp q hq => hdisj p (by omega) q (by omega)) (by omega)

theorem range_one_foldl_encode (src dst : Nat) (m : Mem) :
    (List.range 1).foldl (encodeGroup src dst) m = encodeGroup src dst m 0 := by
  rw [show List.range 1 = [0] from rfl, List.foldl_cons, List.foldl_nil]

theorem convert_encode_32 (src dst : Nat) (m : Mem) :
    convert_fp32_to_mxfp4_tile src dst 32 m = encodeGroup src dst m 0 := by
  rw [convert_fp32_to_mxfp4_tile]
  norm_num [MXFP4_BLOCK_SIZE]
  exact range_one_foldl_encode src dst m

/-- C5: packing correctness for one group of 32 arbitrary values encoded
into a fresh (zeroed, non-overlapping) compact buffer: extracting nibble
`j % 8` of magnitude word `j / 8` (the word at offset `j/8 + 1` of the
5-word block) recovers exactly the 4-bit magnitude the encoder computed
for value `j`. -/
theorem c5_packing_correctness (m : Mem) (src dst : Nat)
    (hdisj : ∀ j, j < 32 → ∀ w, w ≤ 4 → src + j ≠ dst + w)
    (hz : ∀ w, 1 ≤ w → w ≤ 4 → m (dst + w) = 0)
    (j : Nat) (hj : j < 32) :
    ((convert_fp32_to_mxfp4_tile src dst 32 m) (dst + j / 8 + 1) >>>
        (j % 8 * 4)) &&& 0x0F
      = encodeMag (groupMaxExp src 0 m) (m (src + j)) := by
  rw [convert_encode_32]
  have haddr : dst + j / 8 + 1 = dst + 0 * 5 + (j / 8 + 1) := by omega
  rw [haddr]
  rw [encodeGroup_magWord src dst m 0
    (fun j2 hj2 w hw => by
      have := hdisj j2 hj2 w hw
      omega)
    (fun w hw1 hw2 => by
      have := hz w hw1 hw2
      rw [show dst + 0 * 5 + w = dst + w from by omega]
      exact this)
    (j / 8) (by omega)]
  rw [nibbleSum_extract _ (fun k _ => encodeMag_lt_16 _ _) (j % 8) (by omega)]
  congr 2
  omega

theorem c5_packing_correctness_witness :
    ((convert_fp32_to_mxfp4_tile 0 50 32 (fun a => if a = 0 then 42467328 else 0))
        (50 + 0 / 8 + 1) >>> (0 % 8 * 4)) &&& 0x0F
      = encodeMag (groupMaxExp 0 0 (fun a => if a = 0 then 42467328 else 0))
          ((fun a => if a = 0 then 42467328 else 0) (0 + 0)) :=
  c5_packing_correctness _ 0 50 (by decide) (by decide) 0 (by decide)

theorem convert_decode_32 (src dst : Nat) (m : Mem) :
    convert_mxfp4_to_fp32_tile src dst 32 m = decodeGroup src dst m 0 := by
  rw [convert_mxfp4_to_fp32_tile]
  norm_num [MXFP4_BLOCK_SIZE]
  rw [show List.range 1 = [0] from rfl, List.foldl_cons, List.foldl_nil]

/-- C6: the numerical boundary behavior of the codec on one 32-value
group. Decoding: a stored 4-bit magnitude of zero always decodes to the
word 0 exactly. Encoding: a nonzero value whose exponent field is 16 or
more below the group's shared maximum exponent packs to the 4-bit
magnitude zero (flush-to-zero), as observed in the encoded buffer. -/
theorem c6_zero_magnitudes (m : Mem) (csrc cdst esrc edst j : Nat) (hj : j < 32)
    (hdisjd : ∀ q, q < 32 → ∀ w, w ≤ 4 → cdst + q ≠ csrc + w)
    (hdisje : ∀ j2, j2 < 32 → ∀ w, w ≤ 4 → esrc + j2 ≠ edst + w)
    (hze : ∀ w, 1 ≤ w → w ≤ 4 → m (edst + w) = 0) :
    ((m (csrc + j / 8 + 1) >>> (j % 8 * 4)) &&& 0x0F = 0 →
      (convert_mxfp4_to_fp32_tile csrc cdst 32 m) (cdst + j) = 0) ∧
    (m (esrc + j) ≠ 0 → expField (m (esrc + j)) + 16 ≤ groupMaxExp esrc 0 m →
      ((convert_fp32_to_mxfp4_tile esrc edst 32 m) (edst + j / 8 + 1) >>>
          (j % 8 * 4)) &&& 0x0F = 0) := by
  constructor
  · intro hnib
    rw [convert_decode_32]
    have haddr : cdst + j = cdst + 0 * 32 + j := by omega
    rw [haddr]
    rw [decodeGroup_write csrc cdst m 0
      (fun j2 hj2 w hw => by
        have := hdisjd j2 hj2 w hw
        omega)
      j hj]
    rw [show csrc + 0 * 5 + j / 8 + 1 = csrc + j / 8 + 1 from by omega, hnib]
    exact decodeWord_zero _
  · intro hne hflush
    rw [c5_packing_correctness m esrc edst hdisje hze j hj]
    rw [encodeMag, if_pos hne, if_neg (by omega)]

theorem c6_zero_magnitudes_witness :
    (((fun a : Nat => if a = 300 then 4278190080 else 0) (100 + 0 / 8 + 1) >>>
        (0 % 8 * 4)) &&& 0x0F = 0 →
      (convert_mxfp4_to_fp32_tile 100 200 32
        (fun a : Nat => if a = 300 then 4278190080 else 0)) (200 + 0) = 0) ∧
    ((fun a : Nat => if a = 300 then 4278190080 else 0) (300 + 0) ≠ 0 →
      expField ((fun a : Nat => if a = 300 then 4278190080 else 0) (300 + 0)) + 16 ≤
        groupMaxExp 300 0 (fun a : Nat => if a = 300 then 4278190080 else 0) →
      ((convert_fp32_to_mxfp4_tile 300 400 32
          (fun a : Nat => if a = 300 then 4278190080 else 0)) (400 + 0 / 8 + 1) >>>
          (0 % 8 * 4)) &&& 0x0F = 0) :=
  c6_zero_magnitudes (fun a : Nat => if a = 300 then 4278190080 else 0)
    100 200 300 400 0 (by decide) (by decide) (by decide) (by decide)

theorem foldMaxExp_zero (g : Nat → Nat) (l : List Nat)
    (h : ∀ j ∈ l, g j = 0) (acc : Nat) :
    l.foldl (fun acc j => maxExpAcc acc (g j)) acc = acc := by
  induction l generalizing acc with
  | nil => rfl
  | cons j r ih =>
    rw [List.foldl_cons, h j (by simp), show maxExpAcc acc 0 = acc from by
      rw [maxExpAcc]; norm_num]
    exact ih (fun x hx => h x (by simp [hx])) acc

theorem groupMaxExp_zero (src i : Nat) (m : Mem)
    (h : ∀ j, j < 32 → m (src + i * 32 + j) = 0) :
    groupMaxExp src i m = 0 := by
  simp only [groupMaxExp, MXFP4_BLOCK_SIZE]
  exact foldMaxExp_zero _ _ (fun j hj => h j (List.mem_range.mp hj)) 0

theorem encodeMag_zero (maxExp : Nat) : encodeMag maxExp 0 = 0 := by
  rw [encodeMag]
  norm_num

theorem packFold_id (src dst i maxExp : Nat) (m' : Mem) (n : Nat) (hn : n ≤ 32)
    (h0 : ∀ j, j < 32 → m' (src + i * 32 + j) = 0) (a : Nat) :
    (List.range n).foldl (encodePackStep src dst i maxExp) m' a = m' a := by
  induction n generalizing a with
  | zero => simp
  | succ k ih =>
    rw [List.range_succ, List.foldl_append, List.foldl_cons, List.foldl_nil]
    simp only [encodePackStep, MXFP4_BLOCK_SIZE]
    rw [ih (by omega) (dst + i * 5 + k / 8 + 1), ih (by omega) (src + i * 32 + k),
      h0 k (by omega), encodeMag_zero, Nat.zero_shiftLeft, Nat.or_zero]
    by_cases hab : a = dst + i * 5 + k / 8 + 1
    · rw [hab, upd_same]
    · rw [upd_ne _ _ _ _ hab, ih (by omega)]

/-- C9: the encoder assigns each group's exponent word but only ORs the
magnitude nibbles into the four magnitude words without clearing them: on
a group whose 32 inputs are all zero, the exponent word is set to 0 and
the four magnitude words keep exactly the destination buffer's prior
contents, so the output depends on the destination's initial contents. -/
theorem c9_encoder_frame_effect (m : Mem) (src dst : Nat)
    (hzero : ∀ j, j < 32 → m (src + j) = 0) :
    (convert_fp32_to_mxfp4_tile src dst 32 m) dst = 0 ∧
    (∀ w, 1 ≤ w → w ≤ 4 →
      (convert_fp32_to_mxfp4_tile src dst 32 m) (dst + w) = m (dst + w)) := by
  rw [convert_encode_32]
  simp only [encodeGroup, MXFP4_BLOCK_SIZE]
  have hz' : ∀ j, j < 32 → m (src + 0 * 32 + j) = 0 := by
    intro j hj
    rw [show src + 0 * 32 + j = src + j from by omega]
    exact hzero j hj
  have hmax : groupMaxExp src 0 m = 0 := groupMaxExp_zero src 0 m hz'
  rw [hmax]
  have hupd0 : ∀ j, j < 32 →
      (upd m (dst + 0 * 5) (0 <<< 24)) (src + 0 * 32 + j) = 0 := by
    intro j hj
    by_cases hc : src + 0 * 32 + j = dst + 0 * 5
    · rw [hc, upd_same]
      rw [Nat.zero_shiftLeft]
    · rw [upd_ne _ _ _ _ hc]
      exact hz' j hj
  constructor
  · rw [packFold_id src dst 0 0 _ 32 (by omega) hupd0 dst]
    rw [show dst = dst + 0 * 5 from by omega, upd_same, Nat.zero_shiftLeft]
  · intro w hw1 hw2
    rw [packFold_id src dst 0 0 _ 32 (by omega) hupd0 (dst + w)]
    exact upd_ne _ _ _ _ (by omega)

theorem c9_encoder_frame_effect_witness :
    (convert_fp32_to_mxfp4_tile 0 100 32
      (fun a => if a = 103 then 77 else 0)) 100 = 0 ∧
    (∀ w, 1 ≤ w → w ≤ 4 →
      (convert_fp32_to_mxfp4_tile 0 100 32
        (fun a => if a = 103 then 77 else 0)) (100 + w) =
      (fun a : Nat => if a = 103 then 77 else 0) (100 + w)) :=
  c9_encoder_frame_effect (fun a => if a = 103 then 77 else 0) 0 100 (by decide)

/-- C10: every store the encoder performs lands inside the writer's
scratch buffer of `tile_elements / 6` words: for a positive multiple of
32, any address whose contents the encoder changes is `dst + off` with
`off < mxfp4_buffer_words tile_elements`, since the encoder writes only
the `(tile_elements / 32) * 5` words of the compact layout. -/
theorem c10_scratch_buffer_bound (te src dst : Nat) (m : Mem)
    (hmul : 32 ∣ te) (hpos : 0 < te) (a : Nat)
    (hch : convert_fp32_to_mxfp4_tile src dst te m a ≠ m a) :
    ∃ off, off < mxfp4_buffer_words te ∧ a = dst + off := by
  by_cases hex : ∃ q, q < 5 * (te / 32) ∧ a = dst + q
  · obtain ⟨q, hq, rfl⟩ := hex
    refine ⟨q, ?_, rfl⟩
    rw [mxfp4_buffer_words]
    omega
  · exfalso
    apply hch
    rw [convert_fp32_to_mxfp4_tile]
    simp only [MXFP4_BLOCK_SIZE]
    apply encodeTile_frame
    intro q hq hne
    exact hex ⟨q, hq, hne⟩

theorem c10_scratch_buffer_bound_witness :
    ∃ off, off < mxfp4_buffer_words 64 ∧ (100 : Nat) = 100 + off :=
  c10_scratch_buffer_bound 64 0 100 (fun a => if a = 0 then 42467328 else 0)
    (by decide) (by decide) 100 (by decide)

theorem expWord_roundtrip (e : Nat) (he : e < 256) :
    ((e <<< 24) >>> 24) &&& 0xFF = e := by
  have h1 : e <<< 24 = e * 16777216 := Nat.shiftLeft_eq e 24
  have h2 : (e * 16777216) >>> 24 = e * 16777216 / 16777216 :=
    Nat.shiftRight_eq_div_pow _ 24
  have h3 : ∀ z : Nat, z &&& 0xFF = z % 256 := fun z =>
    Nat.and_pow_two_sub_one_eq_mod z 8
  rw [h1, h2, h3]
  omega

/-- C4 counterexample: the claim asserts that after a lossless-range
round trip every decoded word's exponent field equals the group's shared
exponent. On the tile whose single nonzero value is `1 << 23` (exponent
field 1, mantissa 0) the hypothesis holds (all nonzero values share
exponent field 1) and the shared exponent is 1, but value 0 encodes to
magnitude 0 and therefore decodes to the word 0, whose exponent field is
0, not 1. -/
theorem c4_roundtrip_counterexample :
    (∀ j1, j1 < 32 → ∀ j2, j2 < 32 →
      (fun a : Nat => if a = 0 then 8388608 else 0) j1 ≠ 0 →
      (fun a : Nat => if a = 0 then 8388608 else 0) j2 ≠ 0 →
      expField ((fun a : Nat => if a = 0 then 8388608 else 0) j1) =
        expField ((fun a : Nat => if a = 0 then 8388608 else 0) j2)) ∧
    groupMaxExp 0 0 (fun a => if a = 0 then 8388608 else 0) = 1 ∧
    (convert_mxfp4_to_fp32_tile 100 200 32
      (convert_fp32_to_mxfp4_tile 0 100 32
        (fun a => if a = 0 then 8388608 else 0))) 200 = 0 ∧
    expField ((convert_mxfp4_to_fp32_tile 100 200 32
      (convert_fp32_to_mxfp4_tile 0 100 32
        (fun a => if a = 0 then 8388608 else 0))) 200) ≠
      groupMaxExp 0 0 (fun a => if a = 0 then 8388608 else 0) := by
  refine ⟨by decide, by decide, by decide, by decide⟩

/-- C4 (amended): for a tile whose every group's nonzero values share one
exponent field, encoding into a fresh zeroed buffer and decoding into
another fresh zeroed buffer reproduces every value's exact 4-bit
magnitude: each decoded word's top 4 mantissa bits equal the originally
encoded magnitude, and whenever that magnitude is nonzero the decoded
word's exponent field equals the group's shared exponent; a zero
magnitude decodes to the word 0 (whose exponent field is 0). -/
theorem c4_roundtrip_amended (m : Mem) (src dstE dstD n : Nat)
    (hdisjE : ∀ p, p < 32 * n → ∀ q, q < 5 * n → src + p ≠ dstE + q)
    (hzE : ∀ q, q < 5 * n → m (dstE + q) = 0)
    (hdisjD : ∀ p, p < 5 * n → ∀ q, q < 32 * n → dstD + q ≠ dstE + p)
    (hzD : ∀ q, q < 32 * n → m (dstD + q) = 0)
    (hshared : ∀ i, i < n → ∀ j1, j1 < 32 → ∀ j2, j2 < 32 →
      m (src + i * 32 + j1) ≠ 0 → m (src + i * 32 + j2) ≠ 0 →
      expField (m (src + i * 32 + j1)) = expField (m (src + i * 32 + j2)))
    (i : Nat) (hi : i < n) (j : Nat) (hj : j < 32) :
    mantTop4 ((convert_mxfp4_to_fp32_tile dstE dstD (32 * n)
        (convert_fp32_to_mxfp4_tile src dstE (32 * n) m)) (dstD + i * 32 + j))
      = encodeMag (groupMaxExp src i m) (m (src + i * 32 + j)) ∧
    (encodeMag (groupMaxExp src i m) (m (src + i * 32 + j)) ≠ 0 →
      expField ((convert_mxfp4_to_fp32_tile dstE dstD (32 * n)
        (convert_fp32_to_mxfp4_tile src dstE (32 * n) m)) (dstD + i * 32 + j))
        = groupMaxExp src i m) ∧
    (encodeMag (groupMaxExp src i m) (m (src + i * 32 + j)) = 0 →
      (convert_mxfp4_to_fp32_tile dstE dstD (32 * n)
        (convert_fp32_to_mxfp4_tile src dstE (32 * n) m)) (dstD + i * 32 + j)
        = 0) := by
  have hdivE : 32 * n / 32 = n := by omega
  have hcoE : convert_fp32_to_mxfp4_tile src dstE (32 * n) m
      = (List.range n).foldl (encodeGroup src dstE) m := by
    rw [convert_fp32_to_mxfp4_tile]
    simp only [MXFP4_BLOCK_SIZE]
    rw [hdivE]
  have hcoD : convert_mxfp4_to_fp32_tile dstE dstD (32 * n)
        ((List.range n).foldl (encodeGroup src dstE) m)
      = (List.range n).foldl (decodeGroup dstE dstD)
        ((List.range n).foldl (encodeGroup src dstE) m) := by
    rw [convert_mxfp4_to_fp32_tile]
    simp only [MXFP4_BLOCK_SIZE]
    rw [hdivE]
  rw [hcoE, hcoD]
  rw [decodeTile_write dstE dstD ((List.range n).foldl (encodeGroup src dstE) m)
    n hdisjD i hi j hj]
  rw [encodeTile_expWord src dstE m n hdisjE i hi]
  rw [expWord_roundtrip _ (groupMaxExp_lt_256 src i m)]
  rw [show dstE + i * 5 + j / 8 + 1 = dstE + i * 5 + (j / 8 + 1) from by omega]
  rw [encodeTile_magWord src dstE m n hdisjE hzE i hi (j / 8) (by omega)]
  rw [nibbleSum_extract _ (fun k _ => encodeMag_lt_16 _ _) (j % 8) (by omega)]
  rw [show src + i * 32 + (8 * (j / 8) + j % 8) = src + i * 32 + j from by omega]
  refine ⟨decodeWord_mantTop4 _ _ (encodeMag_lt_16 _ _),
    fun hne => decodeWord_expField _ _ (encodeMag_lt_16 _ _)
      (groupMaxExp_lt_256 _ _ _) hne,
    fun hzv => by rw [hzv]; exact decodeWord_zero _⟩

theorem c4_roundtrip_amended_witness :
    mantTop4 ((convert_mxfp4_to_fp32_tile 100 200 (32 * 1)
        (convert_fp32_to_mxfp4_tile 0 100 (32 * 1)
          (fun a => if a = 0 then 42467328 else 0))) (200 + 0 * 32 + 0))
      = encodeMag (groupMaxExp 0 0 (fun a => if a = 0 then 42467328 else 0))
          ((fun a : Nat => if a = 0 then 42467328 else 0) (0 + 0 * 32 + 0)) ∧
    (encodeMag (groupMaxExp 0 0 (fun a => if a = 0 then 42467328 else 0))
        ((fun a : Nat => if a = 0 then 42467328 else 0) (0 + 0 * 32 + 0)) ≠ 0 →
      expField ((convert_mxfp4_to_fp32_tile 100 200 (32 * 1)
        (convert_fp32_to_mxfp4_tile 0 100 (32 * 1)
          (fun a => if a = 0 then 42467328 else 0))) (200 + 0 * 32 + 0))
        = groupMaxExp 0 0 (fun a => if a = 0 then 42467328 else 0)) ∧
    (encodeMag (groupMaxExp 0 0 (fun a => if a = 0 then 42467328 else 0))
        ((fun a : Nat => if a = 0 then 42467328 else 0) (0 + 0 * 32 + 0)) = 0 →
      (convert_mxfp4_to_fp32_tile 100 200 (32 * 1)
        (convert_fp32_to_mxfp4_tile 0 100 (32 * 1)
          (fun a => if a = 0 then 42467328 else 0))) (200 + 0 * 32 + 0) = 0) :=
  c4_roundtrip_amended (fun a => if a = 0 then 42467328 else 0) 0 100 200 1
    (by decide) (by decide) (by decide) (by decide) (by decide)
    0 (by decide) 0 (by decide)

theorem M32_eq : M32 = 4294967296 := rfl

theorem addw_lt (x y : Nat) : addw x y < M32 := by
  rw [addw, M32_eq]
  omega

theorem flatMap_congr_mem {α : Type} (f g : Nat → List α) (l : List Nat)
    (h : ∀ b ∈ l, f b = g b) : l.flatMap f = l.flatMap g := by
  induction l with
  | nil => rfl
  | cons x r ih =>
    rw [List.flatMap_cons, List.flatMap_cons, h x (by simp)]
    rw [ih (fun b hb => h b (by simp [hb]))]

theorem readerBatches_structure (args : ReaderArgs) (wp0 wp1 : Nat)
    (bnum s0 s1 : Nat) (hs0 : s0 < M32) (hs1 : s1 < M32) :
    readerBatchesLoop args wp0 wp1 bnum s0 s1
      = (List.range bnum).flatMap (fun b =>
          readerBlocksLoop args wp0 wp1 args.num_blocks
            ((s0 + b * args.MtKt) % M32)
            (if args.bcast_B = 0 then (s1 + b * args.KtNt) % M32 else s1)) := by
  induction bnum generalizing s0 s1 with
  | zero => rfl
  | succ bn ih =>
    rw [readerBatchesLoop, List.range_succ_eq_map, List.flatMap_cons,
      List.flatMap_map]
    congr 1
    · have e0 : (s0 + 0 * args.MtKt) % M32 = s0 := by
        rw [M32_eq] at hs0 ⊢
        omega
      have e1 : (if args.bcast_B = 0 then (s1 + 0 * args.KtNt) % M32 else s1)
          = s1 := by
        rw [M32_eq] at hs1 ⊢
        split <;> omega
      rw [e0, e1]
    · rw [ih (addw s0 args.MtKt)
        (if args.bcast_B = 0 then addw s1 args.KtNt else s1) (addw_lt _ _)
        (by split
            · exact addw_lt _ _
            · exact hs1)]
      apply flatMap_congr_mem
      intro b hb
      congr 1
      · rw [addw, Nat.mod_add_mod]
        congr 1
        rw [Nat.succ_eq_add_one]
        ring
      · by_cases hbc : args.bcast_B = 0
        · rw [if_pos hbc, if_pos hbc, if_pos hbc, addw, Nat.mod_add_mod]
          congr 1
          rw [Nat.succ_eq_add_one]
          ring
        · rw [if_neg hbc, if_neg hbc, if_neg hbc]

/-- C8: across batches (reader lines 149-152) the in0 block traversal of
batch `b` starts at `in0_start + b * MtKt` (in 32-bit arithmetic)
unconditionally, while the in1 traversal of batch `b` starts at
`in1_start + b * KtNt` when `bcast_B = 0` and at the unchanged `in1_start`
for every batch when `bcast_B ≠ 0`. -/
theorem c8_batch_advance (args : ReaderArgs) (wp0 wp1 : Nat)
    (h0 : args.in0_tensor_start_tile_id < M32)
    (h1 : args.in1_tensor_start_tile_id < M32) :
    reader_kernel_main args wp0 wp1
      = (List.range args.batch).flatMap (fun b =>
          readerBlocksLoop args wp0 wp1 args.num_blocks
            ((args.in0_tensor_start_tile_id + b * args.MtKt) % M32)
            (if args.bcast_B = 0 then
              (args.in1_tensor_start_tile_id + b * args.KtNt) % M32
             else args.in1_tensor_start_tile_id)) := by
  rw [reader_kernel_main]
  exact readerBatches_structure args wp0 wp1 args.batch _ _ h0 h1

theorem c8_batch_advance_witness :
    reader_kernel_main c2args 500 800
      = (List.range c2args.batch).flatMap (fun b =>
          readerBlocksLoop c2args 500 800 c2args.num_blocks
            ((c2args.in0_tensor_start_tile_id + b * c2args.MtKt) % M32)
            (if c2args.bcast_B = 0 then
              (c2args.in1_tensor_start_tile_id + b * c2args.KtNt) % M32
             else c2args.in1_tensor_start_tile_id)) :=
  c8_batch_advance c2args 500 800 (by decide) (by decide)

theorem readerIssuedIds_append (cb : Nat) (l1 l2 : List REv) :
    readerIssuedIds cb (l1 ++ l2)
      = readerIssuedIds cb l1 ++ readerIssuedIds cb l2 := by
  rw [readerIssuedIds, readerIssuedIds, readerIssuedIds, List.filterMap_append]

theorem issuedIds_issue_self (cb tid addr : Nat) (l : List REv) :
    readerIssuedIds cb (REv.issue cb tid addr :: l)
      = tid :: readerIssuedIds cb l := by
  rw [readerIssuedIds, List.filterMap_cons, readerIssuedIds]
  simp

theorem issuedIds_issue_other (cb cb2 tid addr : Nat) (h : cb2 ≠ cb)
    (l : List REv) :
    readerIssuedIds cb (REv.issue cb2 tid addr :: l) = readerIssuedIds cb l := by
  rw [readerIssuedIds, List.filterMap_cons, readerIssuedIds]
  simp [h]

theorem issuedIds_reserve (cb cb2 n : Nat) (l : List REv) :
    readerIssuedIds cb (REv.reserve cb2 n :: l) = readerIssuedIds cb l := by
  rw [readerIssuedIds, List.filterMap_cons, readerIssuedIds]

theorem issuedIds_decode (cb cb2 addr : Nat) (l : List REv) :
    readerIssuedIds cb (REv.decode cb2 addr :: l) = readerIssuedIds cb l := by
  rw [readerIssuedIds, List.filterMap_cons, readerIssuedIds]

theorem issuedIds_barrier (cb : Nat) (l : List REv) :
    readerIssuedIds cb (REv.barrier :: l) = readerIssuedIds cb l := by
  rw [readerIssuedIds, List.filterMap_cons, readerIssuedIds]

theorem issuedIds_push (cb cb2 n : Nat) (l : List REv) :
    readerIssuedIds cb (REv.push cb2 n :: l) = readerIssuedIds cb l := by
  rw [readerIssuedIds, List.filterMap_cons, readerIssuedIds]

theorem issuedIds_nil (cb : Nat) : readerIssuedIds cb [] = [] := rfl

theorem issuedIds_ite_decode (cb : Nat) (c : Prop) [Decidable c]
    (cb2 addr : Nat) (l : List REv) :
    readerIssuedIds cb ((if c then [REv.decode cb2 addr] else []) ++ l)
      = readerIssuedIds cb l := by
  split
  · rw [List.cons_append, List.nil_append, issuedIds_decode]
  · rw [List.nil_append]

theorem issuedIds_rowLoop_self (cb mx sw tsz : Nat) (W tid addr : Nat)
    (htid : tid < M32) :
    readerIssuedIds cb (readerRowLoop cb mx sw tsz W tid addr).1
      = (List.range W).map (fun w => (tid + w * sw) % M32) := by
  induction W generalizing tid addr with
  | zero => rfl
  | succ W ih =>
    rw [readerRowLoop]
    simp only []
    rw [List.cons_append, issuedIds_issue_self, issuedIds_ite_decode]
    rw [ih _ _ (addw_lt _ _)]
    rw [List.range_succ_eq_map, List.map_cons, List.map_map]
    have e0 : (tid + 0 * sw) % M32 = tid := by
      rw [M32_eq] at htid ⊢
      omega
    rw [e0]
    congr 1
    apply List.map_congr_left
    intro w hw
    simp only [Function.comp]
    rw [addw, Nat.mod_add_mod, Nat.succ_eq_add_one]
    congr 1
    ring

theorem issuedIds_rowLoop_other (cb cb2 mx sw tsz : Nat) (h : cb2 ≠ cb)
    (W tid addr : Nat) :
    readerIssuedIds cb (readerRowLoop cb2 mx sw tsz W tid addr).1 = [] := by
  induction W generalizing tid addr with
  | zero => rfl
  | succ W ih =>
    rw [readerRowLoop]
    simp only []
    rw [List.cons_append, issuedIds_issue_other cb cb2 _ _ h, issuedIds_ite_decode]
    exact ih _ _

theorem mod_shift1 (x A : Nat) : (x % M32 + A) % M32 = (x + A) % M32 :=
  Nat.mod_add_mod x M32 A

theorem mod_shift2 (x A B : Nat) :
    (x % M32 + A + B) % M32 = (x + A + B) % M32 := by
  rw [Nat.add_assoc, mod_shift1, Nat.add_assoc]

theorem mod_shift3 (x A B C : Nat) :
    (x % M32 + A + B + C) % M32 = (x + A + B + C) % M32 := by
  rw [Nat.add_assoc, mod_shift2]
  congr 1
  ring

theorem mod_shift4 (x A B C D : Nat) :
    (x % M32 + A + B + C + D) % M32 = (x + A + B + C + D) % M32 := by
  rw [Nat.add_assoc, mod_shift3]
  congr 1
  ring

theorem mod_shift5 (x A B C D E : Nat) :
    (x % M32 + A + B + C + D + E) % M32 = (x + A + B + C + D + E) % M32 := by
  rw [Nat.add_assoc, mod_shift4]
  congr 1
  ring

theorem issuedIds_rowsLoop_self (cb mx sw sh W tsz : Nat) (H rowStart addr : Nat)
    (h : rowStart < M32) :
    readerIssuedIds cb (readerRowsLoop cb mx sw sh W tsz H rowStart addr).1
      = (List.range H).flatMap (fun hh =>
          (List.range W).map (fun w =>
            (rowStart + hh * sh + w * sw) % M32)) := by
  induction H generalizing rowStart addr with
  | zero => rfl
  | succ H ih =>
    rw [readerRowsLoop]
    simp only []
    rw [readerIssuedIds_append, issuedIds_rowLoop_self _ _ _ _ _ _ _ h,
      ih _ _ (addw_lt _ _)]
    rw [List.range_succ_eq_map, List.flatMap_cons, List.flatMap_map]
    congr 1
    · apply List.map_congr_left
      intro w hw
      congr 1
      ring
    · apply flatMap_congr_mem
      intro hh hhm
      apply List.map_congr_left
      intro w hw
      rw [addw, mod_shift2, Nat.succ_eq_add_one]
      congr 1
      ring

theorem issuedIds_rowsLoop_other (cb cb2 mx sw sh W tsz : Nat) (h : cb2 ≠ cb)
    (H rowStart addr : Nat) :
    readerIssuedIds cb (readerRowsLoop cb2 mx sw sh W tsz H rowStart addr).1
      = [] := by
  induction H generalizing rowStart addr with
  | zero => rfl
  | succ H ih =>
    rw [readerRowsLoop]
    simp only []
    rw [readerIssuedIds_append, issuedIds_rowLoop_other cb cb2 _ _ _ h, ih]
    rfl

theorem issuedIds_blockBody_in0 (args : ReaderArgs) (wp0 wp1 s0 s1 : Nat)
    (h : s0 < M32) :
    readerIssuedIds 0 (readerBlockBody args wp0 wp1 s0 s1)
      = (List.range args.in0_block_h).flatMap (fun hh =>
          (List.range args.in0_block_w).map (fun w =>
            (s0 + hh * args.in0_tensor_stride_h +
              w * args.in0_tensor_stride_w) % M32)) := by
  rw [readerBlockBody, issuedIds_reserve, issuedIds_reserve,
    readerIssuedIds_append, readerIssuedIds_append,
    issuedIds_rowsLoop_self _ _ _ _ _ _ _ _ _ h,
    issuedIds_rowsLoop_other 0 1 _ _ _ _ _ (by decide),
    issuedIds_barrier, issuedIds_push, issuedIds_push, issuedIds_nil]
  simp

theorem issuedIds_blockBody_in1 (args : ReaderArgs) (wp0 wp1 s0 s1 : Nat)
    (h : s1 < M32) :
    readerIssuedIds 1 (readerBlockBody args wp0 wp1 s0 s1)
      = (List.range args.in1_block_h).flatMap (fun hh =>
          (List.range args.in1_block_w).map (fun w =>
            (s1 + hh * args.in1_tensor_stride_h +
              w * args.in1_tensor_stride_w) % M32)) := by
  rw [readerBlockBody, issuedIds_reserve, issuedIds_reserve,
    readerIssuedIds_append, readerIssuedIds_append,
    issuedIds_rowsLoop_other 1 0 _ _ _ _ _ (by decide),
    issuedIds_rowsLoop_self _ _ _ _ _ _ _ _ _ h,
    issuedIds_barrier, issuedIds_push, issuedIds_push, issuedIds_nil]
  simp

theorem issuedIds_blocksLoop_in0 (args : ReaderArgs) (wp0 wp1 : Nat)
    (B s0 s1 : Nat) (h0 : s0 < M32) :
    readerIssuedIds 0 (readerBlocksLoop args wp0 wp1 B s0 s1)
      = (List.range B).flatMap (fun blk =>
          (List.range args.in0_block_h).flatMap (fun hh =>
            (List.range args.in0_block_w).map (fun w =>
              (s0 + blk * args.in0_tensor_next_block_stride +
                hh * args.in0_tensor_stride_h +
                w * args.in0_tensor_stride_w) % M32))) := by
  induction B generalizing s0 s1 with
  | zero => rfl
  | succ B ih =>
    rw [readerBlocksLoop]
    rw [readerIssuedIds_append, issuedIds_blockBody_in0 _ _ _ _ _ h0,
      ih _ _ (addw_lt _ _)]
    rw [List.range_succ_eq_map, List.flatMap_cons, List.flatMap_map]
    congr 1
    · apply flatMap_congr_mem
      intro hh hhm
      apply List.map_congr_left
      intro w hw
      congr 1
      ring
    · apply flatMap_congr_mem
      intro blk hblk
      apply flatMap_congr_mem
      intro hh hhm
      apply List.map_congr_left
      intro w hw
      rw [addw, mod_shift3, Nat.succ_eq_add_one]
      congr 1
      ring

theorem issuedIds_blocksLoop_in1 (args : ReaderArgs) (wp0 wp1 : Nat)
    (B s0 s1 : Nat) (h1 : s1 < M32) :
    readerIssuedIds 1 (readerBlocksLoop args wp0 wp1 B s0 s1)
      = (List.range B).flatMap (fun blk =>
          (List.range args.in1_block_h).flatMap (fun hh =>
            (List.range args.in1_block_w).map (fun w =>
              (s1 + blk * args.in1_tensor_next_block_stride +
                hh * args.in1_tensor_stride_h +
                w * args.in1_tensor_stride_w) % M32))) := by
  induction B generalizing s0 s1 with
  | zero => rfl
  | succ B ih =>
    rw [readerBlocksLoop]
    rw [readerIssuedIds_append, issuedIds_blockBody_in1 _ _ _ _ _ h1,
      ih _ _ (addw_lt _ _)]
    rw [List.range_succ_eq_map, List.flatMap_cons, List.flatMap_map]
    congr 1
    · apply flatMap_congr_mem
      intro hh hhm
      apply List.map_congr_left
      intro w hw
      congr 1
      ring
    · apply flatMap_congr_mem
      intro blk hblk
      apply flatMap_congr_mem
      intro hh hhm
      apply List.map_congr_left
      intro w hw
      rw [addw, mod_shift3, Nat.succ_eq_add_one]
      congr 1
      ring

theorem readerIssuedIds_flatMap (cb : Nat) (f : Nat → List REv) (l : List Nat) :
    readerIssuedIds cb (l.flatMap f)
      = l.flatMap (fun b => readerIssuedIds cb (f b)) := by
  induction l with
  | nil => rfl
  | cons x r ih =>
    rw [List.flatMap_cons, readerIssuedIds_append, ih, List.flatMap_cons]

theorem issuedIds_reader_in0 (args : ReaderArgs) (wp0 wp1 : Nat)
    (h0 : args.in0_tensor_start_tile_id < M32)
    (h1 : args.in1_tensor_start_tile_id < M32) :
    readerIssuedIds 0 (reader_kernel_main args wp0 wp1)
      = readerSpecIds args.in0_tensor_start_tile_id args.MtKt
          args.in0_tensor_next_block_stride args.in0_tensor_stride_h
          args.in0_tensor_stride_w args.batch args.num_blocks
          args.in0_block_h args.in0_block_w := by
  rw [reader_kernel_main, readerBatches_structure args wp0 wp1 _ _ _ h0 h1,
    readerIssuedIds_flatMap, readerSpecIds]
  apply flatMap_congr_mem
  intro b hb
  rw [issuedIds_blocksLoop_in0 _ _ _ _ _ _ (Nat.mod_lt _ (by rw [M32_eq]; omega))]
  apply flatMap_congr_mem
  intro blk hblk
  apply flatMap_congr_mem
  intro hh hhm
  apply List.map_congr_left
  intro w hw
  rw [mod_shift3]

theorem issuedIds_reader_in1 (args : ReaderArgs) (wp0 wp1 : Nat)
    (h0 : args.in0_tensor_start_tile_id < M32)
    (h1 : args.in1_tensor_start_tile_id < M32) :
    readerIssuedIds 1 (reader_kernel_main args wp0 wp1)
      = readerSpecIds args.in1_tensor_start_tile_id
          (if args.bcast_B = 0 then args.KtNt else 0)
          args.in1_tensor_next_block_stride args.in1_tensor_stride_h
          args.in1_tensor_stride_w args.batch args.num_blocks
          args.in1_block_h args.in1_block_w := by
  rw [reader_kernel_main, readerBatches_structure args wp0 wp1 _ _ _ h0 h1,
    readerIssuedIds_flatMap, readerSpecIds]
  apply flatMap_congr_mem
  intro b hb
  by_cases hbc : args.bcast_B = 0
  · rw [if_pos hbc, if_pos hbc]
    rw [issuedIds_blocksLoop_in1 _ _ _ _ _ _ (Nat.mod_lt _ (by rw [M32_eq]; omega))]
    apply flatMap_congr_mem
    intro blk hblk
    apply flatMap_congr_mem
    intro hh hhm
    apply List.map_congr_left
    intro w hw
    rw [mod_shift3]
  · rw [if_neg hbc, if_neg hbc]
    rw [issuedIds_blocksLoop_in1 _ _ _ _ _ _ h1]
    apply flatMap_congr_mem
    intro blk hblk
    apply flatMap_congr_mem
    intro hh hhm
    apply List.map_congr_left
    intro w hw
    congr 1

theorem writerIssuedIds_append (l1 l2 : List WEv) :
    writerIssuedIds (l1 ++ l2) = writerIssuedIds l1 ++ writerIssuedIds l2 := by
  rw [writerIssuedIds, writerIssuedIds, writerIssuedIds, List.filterMap_append]

theorem wIds_wait (cb n : Nat) (l : List WEv) :
    writerIssuedIds (WEv.wait cb n :: l) = writerIssuedIds l := by
  rw [writerIssuedIds, List.filterMap_cons, writerIssuedIds]

theorem wIds_barrier (l : List WEv) :
    writerIssuedIds (WEv.barrier :: l) = writerIssuedIds l := by
  rw [writerIssuedIds, List.filterMap_cons, writerIssuedIds]

theorem wIds_pop (cb n : Nat) (l : List WEv) :
    writerIssuedIds (WEv.pop cb n :: l) = writerIssuedIds l := by
  rw [writerIssuedIds, List.filterMap_cons, writerIssuedIds]

theorem wIds_writeIssue (tid addr sz : Nat) (pl : List Nat) (l : List WEv) :
    writerIssuedIds (WEv.writeIssue tid addr sz pl :: l)
      = tid :: writerIssuedIds l := by
  rw [writerIssuedIds, List.filterMap_cons, writerIssuedIds]

theorem wIds_tileStep (m : Mem) (args : WriterArgs) (tid addr : Nat)
    (l : List WEv) :
    writerIssuedIds ((writerTileStep m args tid addr).1 :: l)
      = tid :: writerIssuedIds l := by
  rw [writerTileStep]
  split
  · exact wIds_writeIssue _ _ _ _ _
  · exact wIds_writeIssue _ _ _ _ _

theorem wIds_rowLoop (args : WriterArgs) (W tid addr : Nat) (m : Mem)
    (htid : tid < M32) :
    writerIssuedIds (writerRowLoop args W tid addr m).1
      = (List.range W).map (fun w =>
          (tid + w * args.out_tensor_stride_w) % M32) := by
  induction W generalizing tid addr m with
  | zero => rfl
  | succ W ih =>
    rw [writerRowLoop]
    simp only []
    rw [wIds_tileStep, ih _ _ _ (addw_lt _ _)]
    rw [List.range_succ_eq_map, List.map_cons, List.map_map]
    have e0 : (tid + 0 * args.out_tensor_stride_w) % M32 = tid := by
      rw [M32_eq] at htid ⊢
      omega
    rw [e0]
    congr 1
    apply List.map_congr_left
    intro w hw
    simp only [Function.comp]
    rw [addw, Nat.mod_add_mod, Nat.succ_eq_add_one]
    congr 1
    ring

theorem wIds_rowsLoop (args : WriterArgs) (H rowStart addr : Nat) (m : Mem)
    (h : rowStart < M32) :
    writerIssuedIds (writerRowsLoop args H rowStart addr m).1
      = (List.range H).flatMap (fun hh =>
          (List.range args.out_subblock_w).map (fun w =>
            (rowStart + hh * args.out_tensor_stride_h +
              w * args.out_tensor_stride_w) % M32)) := by
  induction H generalizing rowStart addr m with
  | zero => rfl
  | succ H ih =>
    rw [writerRowsLoop]
    simp only []
    rw [writerIssuedIds_append, wIds_rowLoop _ _ _ _ _ h, ih _ _ _ (addw_lt _ _)]
    rw [List.range_succ_eq_map, List.flatMap_cons, List.flatMap_map]
    congr 1
    · apply List.map_congr_left
      intro w hw
      congr 1
      ring
    · apply flatMap_congr_mem
      intro hh hhm
      apply List.map_congr_left
      intro w hw
      rw [addw, mod_shift2, Nat.succ_eq_add_one]
      congr 1
      ring

theorem wIds_sbwLoop (args : WriterArgs) (rp : Nat) (NW sbwStart : Nat) (m : Mem)
    (h : sbwStart < M32) :
    writerIssuedIds (writerSbwLoop args rp NW sbwStart m).1
      = (List.range NW).flatMap (fun sbw =>
          (List.range args.out_subblock_h).flatMap (fun hh =>
            (List.range args.out_subblock_w).map (fun w =>
              (sbwStart + sbw * args.out_tensor_next_subblock_stride_w +
                hh * args.out_tensor_stride_h +
                w * args.out_tensor_stride_w) % M32))) := by
  induction NW generalizing sbwStart m with
  | zero => rfl
  | succ NW ih =>
    rw [writerSbwLoop]
    simp only []
    rw [writerIssuedIds_append, List.cons_append, wIds_wait,
      writerIssuedIds_append, wIds_rowsLoop _ _ _ _ _ h,
      ih _ _ (addw_lt _ _)]
    rw [show writerIssuedIds [WEv.barrier, WEv.pop 16 args.out_subblock_tile_count]
      = [] from rfl, List.append_nil]
    rw [List.range_succ_eq_map, List.flatMap_cons, List.flatMap_map]
    congr 1
    · apply flatMap_congr_mem
      intro hh hhm
      apply List.map_congr_left
      intro w hw
      congr 1
      ring
    · apply flatMap_congr_mem
      intro sbw hsbw
      apply flatMap_congr_mem
      intro hh hhm
      apply List.map_congr_left
      intro w hw
      rw [addw, mod_shift3, Nat.succ_eq_add_one]
      congr 1
      ring

theorem wIds_sbhLoop (args : WriterArgs) (rp : Nat) (NH sbhStart : Nat) (m : Mem)
    (h : sbhStart < M32) :
    writerIssuedIds (writerSbhLoop args rp NH sbhStart m).1
      = (List.range NH).flatMap (fun sbh =>
          (List.range args.out_num_subblocks_w).flatMap (fun sbw =>
            (List.range args.out_subblock_h).flatMap (fun hh =>
              (List.range args.out_subblock_w).map (fun w =>
                (sbhStart + sbh * args.out_tensor_next_subblock_stride_h +
                  sbw * args.out_tensor_next_subblock_stride_w +
                  hh * args.out_tensor_stride_h +
                  w * args.out_tensor_stride_w) % M32)))) := by
  induction NH generalizing sbhStart m with
  | zero => rfl
  | succ NH ih =>
    rw [writerSbhLoop]
    simp only []
    rw [writerIssuedIds_append, wIds_sbwLoop _ _ _ _ _ h, ih _ _ (addw_lt _ _)]
    rw [List.range_succ_eq_map, List.flatMap_cons, List.flatMap_map]
    congr 1
    · apply flatMap_congr_mem
      intro sbw hsbw
      apply flatMap_congr_mem
      intro hh hhm
      apply List.map_congr_left
      intro w hw
      congr 1
      ring
    · apply flatMap_congr_mem
      intro sbh hsbh
      apply flatMap_congr_mem
      intro sbw hsbw
      apply flatMap_congr_mem
      intro hh hhm
      apply List.map_congr_left
      intro w hw
      rw [addw, mod_shift4, Nat.succ_eq_add_one]
      congr 1
      ring

theorem wIds_batchesLoop (args : WriterArgs) (rp : Nat) (bnum start : Nat)
    (m : Mem) (h : start < M32) :
    writerIssuedIds (writerBatchesLoop args rp bnum start m).1
      = (List.range bnum).flatMap (fun b =>
          (List.range args.out_num_subblocks_h).flatMap (fun sbh =>
            (List.range args.out_num_subblocks_w).flatMap (fun sbw =>
              (List.range args.out_subblock_h).flatMap (fun hh =>
                (List.range args.out_subblock_w).map (fun w =>
                  (start + b * args.MtNt +
                    sbh * args.out_tensor_next_subblock_stride_h +
                    sbw * args.out_tensor_next_subblock_stride_w +
                    hh * args.out_tensor_stride_h +
                    w * args.out_tensor_stride_w) % M32))))) := by
  induction bnum generalizing start m with
  | zero => rfl
  | succ bnum ih =>
    rw [writerBatchesLoop]
    simp only []
    rw [writerIssuedIds_append, wIds_sbhLoop _ _ _ _ _ h, ih _ _ (addw_lt _ _)]
    rw [List.range_succ_eq_map, List.flatMap_cons, List.flatMap_map]
    congr 1
    · apply flatMap_congr_mem
      intro sbh hsbh
      apply flatMap_congr_mem
      intro sbw hsbw
      apply flatMap_congr_mem
      intro hh hhm
      apply List.map_congr_left
      intro w hw
      congr 1
      ring
    · apply flatMap_congr_mem
      intro b hb
      apply flatMap_congr_mem
      intro sbh hsbh
      apply flatMap_congr_mem
      intro sbw hsbw
      apply flatMap_congr_mem
      intro hh hhm
      apply List.map_congr_left
      intro w hw
      rw [addw, mod_shift5, Nat.succ_eq_add_one]
      congr 1
      ring

/-- C7: the tile-index sequences issued for transfer. For each reader
operand the issued sequence is exactly the row-major, block-major,
batch-major enumeration `block_start + h*stride_h + w*stride_w` (32-bit
arithmetic) with the block start advancing by the next-block stride per
block and the batch start advancing per C8; for the writer the issued
sequence is the same enumeration refined by the two subblock levels.
Each logical (batch, block, row, column) coordinate is visited exactly
once, in lexicographic order, since both sides enumerate
`List.range`-products. -/
theorem c7_traversal_order (args : ReaderArgs) (wp0 wp1 : Nat)
    (wargs : WriterArgs) (rp : Nat) (m : Mem)
    (h0 : args.in0_tensor_start_tile_id < M32)
    (h1 : args.in1_tensor_start_tile_id < M32)
    (hout : wargs.out_tensor_start_tile_id < M32) :
    readerIssuedIds 0 (reader_kernel_main args wp0 wp1)
      = readerSpecIds args.in0_tensor_start_tile_id args.MtKt
          args.in0_tensor_next_block_stride args.in0_tensor_stride_h
          args.in0_tensor_stride_w args.batch args.num_blocks
          args.in0_block_h args.in0_block_w ∧
    readerIssuedIds 1 (reader_kernel_main args wp0 wp1)
      = readerSpecIds args.in1_tensor_start_tile_id
          (if args.bcast_B = 0 then args.KtNt else 0)
          args.in1_tensor_next_block_stride args.in1_tensor_stride_h
          args.in1_tensor_stride_w args.batch args.num_blocks
          args.in1_block_h args.in1_block_w ∧
    writerIssuedIds (writer_kernel_main wargs rp m)
      = writerSpecIds wargs.out_tensor_start_tile_id wargs.MtNt
          wargs.out_tensor_next_subblock_stride_h
          wargs.out_tensor_next_subblock_stride_w
          wargs.out_tensor_stride_h wargs.out_tensor_stride_w
          wargs.batch wargs.out_num_subblocks_h wargs.out_num_subblocks_w
          wargs.out_subblock_h wargs.out_subblock_w := by
  refine ⟨issuedIds_reader_in0 args wp0 wp1 h0 h1,
    issuedIds_reader_in1 args wp0 wp1 h0 h1, ?_⟩
  rw [writer_kernel_main, wIds_batchesLoop _ _ _ _ _ hout, writerSpecIds]

theorem c7_traversal_order_witness :
    readerIssuedIds 0 (reader_kernel_main c2args 500 800)
      = readerSpecIds c2args.in0_tensor_start_tile_id c2args.MtKt
          c2args.in0_tensor_next_block_stride c2args.in0_tensor_stride_h
          c2args.in0_tensor_stride_w c2args.batch c2args.num_blocks
          c2args.in0_block_h c2args.in0_block_w ∧
    readerIssuedIds 1 (reader_kernel_main c2args 500 800)
      = readerSpecIds c2args.in1_tensor_start_tile_id
          (if c2args.bcast_B = 0 then c2args.KtNt else 0)
          c2args.in1_tensor_next_block_stride c2args.in1_tensor_stride_h
          c2args.in1_tensor_stride_w c2args.batch c2args.num_blocks
          c2args.in1_block_h c2args.in1_block_w ∧
    writerIssuedIds (writer_kernel_main c3args 900 c3mem)
      = writerSpecIds c3args.out_tensor_start_tile_id c3args.MtNt
          c3args.out_tensor_next_subblock_stride_h
          c3args.out_tensor_next_subblock_stride_w
          c3args.out_tensor_stride_h c3args.out_tensor_stride_w
          c3args.batch c3args.out_num_subblocks_h c3args.out_num_subblocks_w
          c3args.out_subblock_h c3args.out_subblock_w :=
  c7_traversal_order c2args 500 800 c3args 900 c3mem (by decide) (by decide)
    (by decide)
